import Mathlib

/-!
Shallow embedding of the document-to-vector pipeline and retrieval protocol of
the local-rag-endpoint-node repository.

Sources embedded here:
* `EmbeddingService` (chunkText, generateEmbedding, generateEmbeddingsForDocument)
* `DocumentService` (saveDocument, searchDocuments)
* the `/api/process`, `/api/search` and `/api/documents` route handlers.

Modelling conventions:
* JS strings are `List Char`; `slice`/`substring` become `take`/`drop`.
* JS numbers are exact rationals; a JS `NaN` (which arises from arithmetic on
  `undefined`, e.g. out-of-bounds array access) is modelled by `Option ℚ`
  with `none` standing for NaN/undefined.
* The external embedding HTTP service is a parameter
  `provider : Text → Except EmbErr (List ℚ)`; `Except.error` models the
  thrown `Error('Failed to generate embedding')`.
* The SQLite database is a `DBState`; SQL `ORDER BY ... LIMIT l OFFSET o` on a
  computed column is modelled as a (stable) sort followed by `drop o` and
  `take l`; `vec_distance_cosine` is an abstract parameter `dist`, since the
  sqlite-vec extension is an external capability.
-/

set_option maxRecDepth 8000

namespace RagEndpoint

abbrev Text := List Char

/-- A JS number that may be NaN: `none` models NaN (or `undefined` fed into
arithmetic, which JS coerces to NaN). -/
abbrev JSNum := Option ℚ

/-- JS `+` on possibly-NaN numbers: NaN is absorbing. -/
def jsAdd : JSNum → JSNum → JSNum
  | some a, some b => some (a + b)
  | _, _ => none

/-- JS `/` by a (nonzero) plain number: NaN propagates. -/
def jsDiv (a : JSNum) (n : ℚ) : JSNum := a.map (· / n)

/-- The error thrown by `generateEmbedding`
(`throw new Error('Failed to generate embedding')`). -/
inductive EmbErr where
  | failed : EmbErr
deriving DecidableEq

/-!
## EmbeddingService.chunkText

```js
chunkText(text, chunkSize = 2000) {
  const chunks = [];
  for (let i = 0; i < text.length; i += chunkSize) {
    chunks.push(text.slice(i, i + chunkSize));
  }
  return chunks;
}
```

The loop is modelled by structural recursion on a fuel counter initialised to
`text.length`: when `0 < chunkSize` each iteration removes at least one
character, so the fuel never runs out (for `chunkSize = 0` the JS loop does
not terminate; the claims only concern positive chunk sizes).
-/

def chunkTextAux : Nat → Text → Nat → List Text
  | 0, _, _ => []
  | fuel + 1, text, c =>
    if text.length = 0 then []
    else text.take c :: chunkTextAux fuel (text.drop c) c

def chunkText (text : Text) (chunkSize : Nat := 2000) : List Text :=
  chunkTextAux text.length text chunkSize

/-!
## EmbeddingService.generateEmbedding / generateEmbeddingsForDocument

```js
async generateEmbedding(text) {
  try {
    const response = await axios.post(this.embeddingUrl, { text });
    return response.data.embedding;
  } catch (error) { throw new Error('Failed to generate embedding'); }
}

async generateEmbeddingsForDocument(content) {
  const chunks = this.chunkText(content);
  const embeddings = [];
  for (const chunk of chunks) {
    const embedding = await this.generateEmbedding(chunk);
    embeddings.push(embedding);
  }
  if (embeddings.length === 0) return null;
  const avgEmbedding = embeddings[0].map((_, i) =>
    embeddings.reduce((sum, emb) => sum + emb[i], 0) / embeddings.length
  );
  return avgEmbedding;
}
```

The HTTP round trip is abstracted into `provider`; `generateEmbedding` is the
provider call itself (its try/catch merely renames the failure).  The `for`
loop is `embedChunks`, which also records the list of provider calls issued
(in order) so that call counts are provable.  The averaging expression is
`avgEmbedding`: `embeddings[0]` is `headD []` (the code only reaches it when
`embeddings` is nonempty), `emb[i]` is `List.get?` (out of bounds gives
`undefined`, whose sum is NaN, i.e. `none`).
-/

def generateEmbedding (provider : Text → Except EmbErr (List ℚ)) (text : Text) :
    Except EmbErr (List ℚ) :=
  provider text

/-- The sequential per-chunk embedding loop; returns the provider calls made
(in order, stopping at the first failure) and the collected vectors. -/
def embedChunks (provider : Text → Except EmbErr (List ℚ)) :
    List Text → List Text × Except EmbErr (List (List ℚ))
  | [] => ([], Except.ok [])
  | ch :: rest =>
    match generateEmbedding provider ch with
    | Except.error e => ([ch], Except.error e)
    | Except.ok v =>
      let r := embedChunks provider rest
      (ch :: r.1, r.2.map (fun vs => v :: vs))

/-- The reduce `embeddings.reduce((sum, emb) => sum + emb[i], 0)`; `emb[i]` out of
bounds is `undefined`, and adding `undefined` yields NaN (`jsAdd` with
`none`). -/
def sumAt (embs : List (List ℚ)) (i : Nat) : JSNum :=
  embs.foldl (fun acc emb => jsAdd acc emb[i]?) (some 0)

/-- The averaging map `embeddings[0].map((_, i) => reduce(...) / embeddings.length)`. -/
def avgEmbedding (embs : List (List ℚ)) : List JSNum :=
  (List.range (embs.headD []).length).map
    (fun i => jsDiv (sumAt embs i) (embs.length : ℚ))

/-- The pipeline `generateEmbeddingsForDocument`: `Except.ok none` is the `null` return
(no embedding), `Except.ok (some v)` the averaged vector. -/
def generateEmbeddingsForDocument (provider : Text → Except EmbErr (List ℚ))
    (content : Text) : Except EmbErr (Option (List JSNum)) :=
  match (embedChunks provider (chunkText content)).2 with
  | Except.error e => Except.error e
  | Except.ok embs =>
    if embs.isEmpty then Except.ok none else Except.ok (some (avgEmbedding embs))

/-- The provider calls issued while embedding a document. -/
def providerCalls (provider : Text → Except EmbErr (List ℚ)) (content : Text) :
    List Text :=
  (embedChunks provider (chunkText content)).1

/-!
## C5: dimensionality mismatch between chunks

The spec requires `generateEmbeddingsForDocument` to fail fast with an
`EmbeddingError` when the provider returns vectors of different lengths for
different chunks.  The code has no dimensionality check at all: the averaging
map ranges over `embeddings[0]` only, so positions beyond the first vector's
length are silently dropped, and a position missing from a later vector makes
the JS sum NaN.  `mismatchProvider` returns a length-1 vector for the first
(2000-character) chunk and a length-2 vector for the rest.
-/

def mismatchProvider : Text → Except EmbErr (List ℚ) :=
  fun t => if t.length = 2000 then Except.ok [1] else Except.ok [2, 3]

/-!
## DocumentService and routes

```js
// saveDocument: extract text, preview = content.substring(0,500) + (len>500?'...':'' ),
// INSERT INTO documents ..., docId = lastID, then generateEmbeddingsForDocument;
// if a vector was produced INSERT INTO embeddings, resolve {id, content} in
// all cases (embedding failure is caught and still resolves).

// searchDocuments(query, limit, offset): queryEmbedding = generateEmbedding(query);
// SELECT d.*, vec_distance_cosine(e.vector, ?) as distance
// FROM documents d JOIN embeddings e ON d.id = e.doc_id
// ORDER BY distance ASC LIMIT ? OFFSET ?
// rows.map(row => ({..., similarity: 1 - row.distance}))
```

The documents table is a list of `DocRecord` (insertion order), the
embeddings table a list of `EmbRow`; `lastID` of the documents insert is the
`nextId` counter.  `ORDER BY distance ASC LIMIT l OFFSET o` is modelled as a
stable sort by distance followed by `drop o` and `take l`;
`vec_distance_cosine(e.vector, probe)` is an abstract `dist` parameter
(external sqlite-vec capability).
-/

/-- Equality of `Except` results is decidable (used only to evaluate the
model on concrete inputs). -/
instance {e a : Type} [DecidableEq e] [DecidableEq a] : DecidableEq (Except e a)
  | Except.error x, Except.error y =>
    if h : x = y then Decidable.isTrue (by rw [h])
    else Decidable.isFalse (fun hc => h (Except.error.inj hc))
  | Except.error _, Except.ok _ => Decidable.isFalse (fun hc => Except.noConfusion hc)
  | Except.ok _, Except.error _ => Decidable.isFalse (fun hc => Except.noConfusion hc)
  | Except.ok x, Except.ok y =>
    if h : x = y then Decidable.isTrue (by rw [h])
    else Decidable.isFalse (fun hc => h (Except.ok.inj hc))

structure DocRecord where
  id : Nat
  filename : Text
  contentPreview : Text
  uploadDate : Nat
deriving DecidableEq

structure EmbRow where
  docId : Nat
  vector : List JSNum
deriving DecidableEq

structure DBState where
  documents : List DocRecord
  embeddings : List EmbRow
  nextId : Nat
deriving DecidableEq

/-- The stored preview `content.substring(0, 500) + (content.length > 500 ? '...' : '')`. -/
def catalogPreview (content : Text) : Text :=
  content.take 500 ++ (if 500 < content.length then ['.', '.', '.'] else [])

structure SaveResult where
  id : Nat
  content : Text
deriving DecidableEq

/-- Model of `DocumentService.saveDocument` after text extraction: insert the document
record, run the embedding pipeline, insert a vector row only when a vector
was produced, and resolve `{id, content}` in every case (an embedding
failure is caught and still resolves). -/
def saveDocument (provider : Text → Except EmbErr (List ℚ))
    (filename content : Text) (now : Nat) (s : DBState) : DBState × SaveResult :=
  let docId := s.nextId
  let s1 : DBState :=
    { s with
      documents := s.documents ++ [⟨docId, filename, catalogPreview content, now⟩]
      nextId := s.nextId + 1 }
  match generateEmbeddingsForDocument provider content with
  | Except.error _ => (s1, ⟨docId, content⟩)
  | Except.ok none => (s1, ⟨docId, content⟩)
  | Except.ok (some v) =>
    ({ s1 with embeddings := s1.embeddings ++ [⟨docId, v⟩] }, ⟨docId, content⟩)

/-- The `/api/process` route handler after upload checks: it responds with
`{documentId: result.id, preview: result.content.substring(0, 200) + '...'}`. -/
def processRoute (provider : Text → Except EmbErr (List ℚ))
    (filename content : Text) (now : Nat) (s : DBState) : Nat × Text :=
  let r := (saveDocument provider filename content now s).2
  (r.id, r.content.take 200 ++ ['.', '.', '.'])

/-- Modelled from the spec's words (§4.2 step 2 and C7): the preview the
spec claims is returned to the caller — the first 500 characters of the
extracted text with a trailing marker appended iff the text is longer than
500 characters. -/
def specClaimedPreview (content : Text) : Text :=
  content.take 500 ++ (if 500 < content.length then ['.', '.', '.'] else [])

structure SearchRow where
  id : Nat
  filename : Text
  contentPreview : Text
  uploadDate : Nat
  distance : ℚ
deriving DecidableEq

structure SearchResult where
  id : Nat
  filename : Text
  preview : Text
  uploadDate : Nat
  similarity : ℚ
deriving DecidableEq

/-- The rows of `FROM documents d JOIN embeddings e ON d.id = e.doc_id` with
the computed `vec_distance_cosine(e.vector, probe)` column. -/
def joinRows (s : DBState) (dist : List JSNum → List ℚ → ℚ) (probe : List ℚ) :
    List SearchRow :=
  s.documents.flatMap fun d =>
    (s.embeddings.filter (fun e => e.docId = d.id)).map fun e =>
      ⟨d.id, d.filename, d.contentPreview, d.uploadDate, dist e.vector probe⟩

/-- The sort `ORDER BY distance ASC` over the joined rows. -/
def rankedRows (s : DBState) (dist : List JSNum → List ℚ → ℚ) (probe : List ℚ) :
    List SearchRow :=
  List.insertionSort (fun a b => a.distance ≤ b.distance) (joinRows s dist probe)

/-- The mapping `rows.map(row => ({..., similarity: 1 - row.distance}))`. -/
def toResult (row : SearchRow) : SearchResult :=
  ⟨row.id, row.filename, row.contentPreview, row.uploadDate, 1 - row.distance⟩

/-- The result rows of the search SQL after `LIMIT limit OFFSET offset` and
the similarity mapping. -/
def searchResults (s : DBState) (dist : List JSNum → List ℚ → ℚ)
    (probe : List ℚ) (limit offset : Nat) : List SearchResult :=
  (((rankedRows s dist probe).drop offset).take limit).map toResult

/-- Model of `DocumentService.searchDocuments`. -/
def searchDocuments (provider : Text → Except EmbErr (List ℚ))
    (dist : List JSNum → List ℚ → ℚ) (s : DBState) (query : Text)
    (limit : Nat := 10) (offset : Nat := 0) : Except EmbErr (List SearchResult) :=
  match generateEmbedding provider query with
  | Except.error e => Except.error e
  | Except.ok probe => Except.ok (searchResults s dist probe limit offset)

inductive RouteErr where
  | validation : RouteErr
  | server : RouteErr
deriving DecidableEq

/-- The full ranked result set (every joined row, ordered by ascending
distance, mapped to results) — what the search returns with no pagination. -/
def fullRankedResults (s : DBState) (dist : List JSNum → List ℚ → ℚ)
    (probe : List ℚ) : List SearchResult :=
  (rankedRows s dist probe).map toResult

/-- The `/api/search` route handler: reject an empty query, compute
`offset = (page - 1) * limit`, and respond `{results, page, limit}`. -/
def searchRoute (provider : Text → Except EmbErr (List ℚ))
    (dist : List JSNum → List ℚ → ℚ) (s : DBState) (query : Text)
    (limit : Nat := 10) (page : Nat := 1) :
    Except RouteErr (List SearchResult × Nat × Nat) :=
  if query.isEmpty then Except.error RouteErr.validation
  else
    match searchDocuments provider dist s query limit ((page - 1) * limit) with
    | Except.error _ => Except.error RouteErr.server
    | Except.ok results => Except.ok (results, page, limit)

structure DocSummary where
  id : Nat
  filename : Text
  preview : Text
  uploadDate : Nat
deriving DecidableEq

def toSummary (d : DocRecord) : DocSummary :=
  ⟨d.id, d.filename, d.contentPreview, d.uploadDate⟩

/-- The `/api/documents` route handler:
`SELECT ... FROM documents ORDER BY upload_date DESC LIMIT ? OFFSET ?` with
`offset = (page - 1) * limit`. -/
def listDocuments (s : DBState) (limit : Nat := 50) (page : Nat := 1) :
    List DocSummary :=
  (((List.insertionSort (fun a b => b.uploadDate ≤ a.uploadDate)
      s.documents).drop ((page - 1) * limit)).take limit).map toSummary

/-- One unfolding step of the chunking loop. -/
lemma chunkTextAux_step {fuel : Nat} (text : Text) (c : Nat) (hf : 0 < fuel) :
    chunkTextAux fuel text c =
      if text.length = 0 then []
      else text.take c :: chunkTextAux (fuel - 1) (text.drop c) c := by
  obtain ⟨f, rfl⟩ : ∃ f, fuel = f + 1 := ⟨fuel - 1, by omega⟩
  rfl

lemma chunkTextAux_nil (fuel c : Nat) : chunkTextAux fuel [] c = [] := by
  cases fuel <;> rfl

/-- Concatenating the chunks gives back the text. -/
lemma chunkTextAux_flatten {c : Nat} (hc : 0 < c) :
    ∀ (fuel : Nat) (text : Text), text.length ≤ fuel →
      (chunkTextAux fuel text c).flatten = text := by
  intro fuel
  induction fuel with
  | zero =>
    intro text ht
    have : text = [] := List.eq_nil_of_length_eq_zero (by omega)
    simp [this, chunkTextAux]
  | succ f ih =>
    intro text ht
    by_cases h0 : text.length = 0
    · have : text = [] := List.eq_nil_of_length_eq_zero h0
      simp [this, chunkTextAux]
    · rw [chunkTextAux_step text c (Nat.succ_pos f), if_neg h0]
      have hdrop : (text.drop c).length ≤ f := by
        rw [List.length_drop]; omega
      simp only [Nat.succ_sub_one, List.flatten_cons, ih (text.drop c) hdrop,
        List.take_append_drop]

/-- The number of chunks is `⌈text.length / c⌉` (as `(len + c - 1) / c`). -/
lemma chunkTextAux_length {c : Nat} (hc : 0 < c) :
    ∀ (fuel : Nat) (text : Text), text.length ≤ fuel →
      (chunkTextAux fuel text c).length = (text.length + c - 1) / c := by
  have key : ∀ l, 1 ≤ l → (l + c - 1) / c = (l - 1) / c + 1 := by
    intro l hl
    have h : l + c - 1 = (l - 1) + c := by omega
    rw [h, Nat.add_div_right _ hc]
  intro fuel
  induction fuel with
  | zero =>
    intro text ht
    have : text = [] := List.eq_nil_of_length_eq_zero (by omega)
    subst this
    simp only [chunkTextAux, List.length_nil]
    exact (Nat.div_eq_of_lt (by omega)).symm
  | succ f ih =>
    intro text ht
    by_cases h0 : text.length = 0
    · have : text = [] := List.eq_nil_of_length_eq_zero h0
      subst this
      simp only [chunkTextAux, List.length_nil, if_pos rfl]
      exact (Nat.div_eq_of_lt (by omega)).symm
    · rw [chunkTextAux_step text c (Nat.succ_pos f), if_neg h0]
      have hdrop : (text.drop c).length ≤ f := by
        rw [List.length_drop]; omega
      simp only [Nat.succ_sub_one]
      rw [List.length_cons, ih (text.drop c) hdrop, List.length_drop]
      set l := text.length with hl
      rcases Nat.lt_or_ge c l with hcl | hcl
      · -- more than one chunk remains
        rw [key l (by omega), key (l - c) (by omega)]
        have h1 : l - 1 = (l - c - 1) + c := by omega
        rw [h1, Nat.add_div_right _ hc]
      · -- this was the final chunk
        have h1 : l - c = 0 := by omega
        rw [h1, key l (by omega), Nat.div_eq_of_lt (show l - 1 < c by omega),
          Nat.div_eq_of_lt (show 0 + c - 1 < c by omega)]

/-- Every chunk has at most `c` characters. -/
lemma chunkTextAux_mem_length {c : Nat} :
    ∀ (fuel : Nat) (text : Text), ∀ ch ∈ chunkTextAux fuel text c, ch.length ≤ c := by
  intro fuel
  induction fuel with
  | zero => intro text ch hch; simp [chunkTextAux] at hch
  | succ f ih =>
    intro text ch hch
    by_cases h0 : text.length = 0
    · rw [chunkTextAux_step text c (Nat.succ_pos f), if_pos h0] at hch
      simp at hch
    · rw [chunkTextAux_step text c (Nat.succ_pos f), if_neg h0] at hch
      rcases List.mem_cons.mp hch with rfl | hmem
      · rw [List.length_take]; omega
      · exact ih (text.drop c) ch hmem

/-- Every chunk except possibly the last has exactly `c` characters. -/
lemma chunkTextAux_nonfinal_length {c : Nat} (_hc : 0 < c) :
    ∀ (fuel : Nat) (text : Text) (i : Nat),
      i + 1 < (chunkTextAux fuel text c).length →
      ((chunkTextAux fuel text c).getD i []).length = c := by
  intro fuel
  induction fuel with
  | zero => intro text i hi; simp [chunkTextAux] at hi
  | succ f ih =>
    intro text i hi
    by_cases h0 : text.length = 0
    · rw [chunkTextAux_step text c (Nat.succ_pos f), if_pos h0] at hi
      simp at hi
    · rw [chunkTextAux_step text c (Nat.succ_pos f), if_neg h0] at hi ⊢
      simp only [Nat.succ_sub_one] at hi ⊢
      cases i with
      | zero =>
        -- the successor chunk list is nonempty, so the text extends past `c`
        rw [List.length_cons] at hi
        have hne : chunkTextAux f (text.drop c) c ≠ [] := by
          intro h
          rw [h] at hi
          simp at hi
        have hdne : text.drop c ≠ [] := by
          intro h
          rw [h, chunkTextAux_nil] at hne
          exact hne rfl
        have : c < text.length := by
          by_contra hcl
          exact hdne (List.drop_eq_nil_of_le (by omega))
        simp [List.length_take]
        omega
      | succ j =>
        rw [List.length_cons] at hi
        simpa using ih (text.drop c) j (by omega)

/-- C1: `chunkText` produces `⌈len/C⌉` chunks, each of at most `C`
characters, all but the final chunk of exactly `C` characters, and the
chunks concatenate back to the original text. -/
theorem chunkText_spec (t : Text) (c : Nat) (hc : 0 < c) :
    (chunkText t c).length = (t.length + c - 1) / c ∧
    (chunkText t c).flatten = t ∧
    (∀ ch ∈ chunkText t c, ch.length ≤ c) ∧
    (∀ i : Nat, i + 1 < (chunkText t c).length →
      ((chunkText t c).getD i []).length = c) := by
  refine ⟨chunkTextAux_length hc t.length t le_rfl,
    chunkTextAux_flatten hc t.length t le_rfl,
    chunkTextAux_mem_length t.length t,
    fun i hi => chunkTextAux_nonfinal_length hc t.length t i hi⟩

/-- Witness for C1: a 8-character text with chunk size 3 splits into
3 chunks that concatenate back to the text. -/
theorem chunkText_spec_witness :
    (chunkText ['a','b','c','d','e','f','g','h'] 3).length = (8 + 3 - 1) / 3 ∧
    (chunkText ['a','b','c','d','e','f','g','h'] 3).flatten =
      ['a','b','c','d','e','f','g','h'] := by
  have h := chunkText_spec ['a','b','c','d','e','f','g','h'] 3 (by decide)
  exact ⟨h.1, h.2.1⟩

/-!
## Mean pooling (C2, C10, C5)
-/

lemma jsAdd_right_comm (z a b : JSNum) :
    jsAdd (jsAdd z a) b = jsAdd (jsAdd z b) a := by
  cases z <;> cases a <;> cases b <;> simp [jsAdd, add_right_comm]

/-- The accumulated sum at position `i` is permutation-invariant. -/
lemma sumAt_perm {embs₁ embs₂ : List (List ℚ)} (p : List.Perm embs₁ embs₂)
    (i : Nat) : sumAt embs₁ i = sumAt embs₂ i :=
  p.foldl_eq' (fun x _ y _ z => jsAdd_right_comm z x[i]? y[i]?) (some 0)

/-- When position `i` is in bounds for every vector, the JS reduce computes
the plain rational sum. -/
lemma foldl_jsAdd (i : Nat) :
    ∀ (embs : List (List ℚ)), (∀ v ∈ embs, i < v.length) → ∀ q : ℚ,
      embs.foldl (fun acc emb => jsAdd acc emb[i]?) (some q) =
        some (q + (embs.map (fun v => v.getD i 0)).sum) := by
  intro embs
  induction embs with
  | nil => intro _ q; simp
  | cons v rest ih =>
    intro h q
    have hv : i < v.length := h v (List.mem_cons_self v rest)
    have hget : v[i]? = some (v.getD i 0) := by
      rw [List.getD_eq_getElem?_getD, List.getElem?_eq_getElem hv]
      rfl
    have hrest : ∀ w ∈ rest, i < w.length := fun w hw => h w (List.mem_cons_of_mem v hw)
    simp only [List.foldl_cons, hget]
    rw [show jsAdd (some q) (some (v.getD i 0)) = some (q + v.getD i 0) from rfl,
      ih hrest (q + v.getD i 0), List.map_cons, List.sum_cons, add_assoc]

lemma sumAt_eq_sum {embs : List (List ℚ)} {i : Nat}
    (h : ∀ v ∈ embs, i < v.length) :
    sumAt embs i = some ((embs.map (fun v => v.getD i 0)).sum) := by
  rw [sumAt, foldl_jsAdd i embs h 0, zero_add]

lemma headD_length_of_forall {embs : List (List ℚ)} {n : Nat} (hne : embs ≠ [])
    (hlen : ∀ v ∈ embs, v.length = n) : (embs.headD []).length = n := by
  obtain ⟨e0, rest, rfl⟩ := List.exists_cons_of_ne_nil hne
  exact hlen e0 (List.mem_cons_self e0 rest)

/-- C2: for a non-empty family of equal-length chunk vectors, the combined
vector computed by `generateEmbeddingsForDocument` is the element-wise
arithmetic mean, and it is invariant under permuting the chunk vectors. -/
theorem mean_pooling_spec (embs : List (List ℚ)) (n : Nat) (hne : embs ≠ [])
    (hlen : ∀ v ∈ embs, v.length = n) :
    (avgEmbedding embs).length = n ∧
    (∀ i, i < n → (avgEmbedding embs)[i]? =
      some (some ((embs.map (fun v => v.getD i 0)).sum / (embs.length : ℚ)))) ∧
    (∀ embs' : List (List ℚ), List.Perm embs' embs →
      avgEmbedding embs' = avgEmbedding embs) ∧
    (∀ (provider : Text → Except EmbErr (List ℚ)) (content : Text),
      (embedChunks provider (chunkText content)).2 = Except.ok embs →
      generateEmbeddingsForDocument provider content =
        Except.ok (some (avgEmbedding embs))) := by
  have hhead := headD_length_of_forall hne hlen
  refine ⟨?_, ?_, ?_, ?_⟩
  · simp only [avgEmbedding, List.length_map, List.length_range, hhead]
  · intro i hi
    have hib : ∀ v ∈ embs, i < v.length := fun v hv => by rw [hlen v hv]; exact hi
    simp only [avgEmbedding, hhead, List.getElem?_map, List.getElem?_range hi,
      Option.map_some', sumAt_eq_sum hib]
    rfl
  · intro embs' hperm
    have hne' : embs' ≠ [] := by
      intro h
      subst h
      exact hne hperm.symm.eq_nil
    have hhead' : (embs'.headD []).length = n :=
      headD_length_of_forall hne' (fun v hv => hlen v (hperm.mem_iff.mp hv))
    simp only [avgEmbedding, hhead, hhead']
    apply List.map_congr_left
    intro i _
    rw [sumAt_perm hperm, hperm.length_eq]
  · intro provider content hok
    rw [generateEmbeddingsForDocument, hok]
    simp [List.isEmpty_iff, hne]

/-- Witness for C2: averaging `[[1,2],[3,4]]` gives a vector of length 2. -/
theorem mean_pooling_spec_witness : (avgEmbedding [[1, 2], [3, 4]]).length = 2 :=
  (mean_pooling_spec [[1, 2], [3, 4]] 2 (by decide) (by decide)).1

/-- A non-empty text of at most 2000 characters is a single chunk. -/
lemma chunkText_single {t : Text} (h1 : t ≠ []) (h2 : t.length ≤ 2000) :
    chunkText t = [t] := by
  unfold chunkText
  have hl : 0 < t.length := List.length_pos.mpr h1
  rw [chunkTextAux_step t 2000 hl, if_neg (by omega),
    List.take_of_length_le h2, List.drop_eq_nil_of_le h2, chunkTextAux_nil]

lemma range_map_some_getD (v : List ℚ) :
    (List.range v.length).map (fun i => some (v.getD i 0)) = v.map some := by
  apply List.ext_getElem
  · simp
  · intro i h1 h2
    simp only [List.getElem_map, List.getElem_range, List.getD_eq_getElem?_getD]
    rw [List.getElem?_eq_getElem (by simpa using h2)]
    rfl

/-- Averaging a single vector returns that vector unchanged (exactly). -/
lemma avgEmbedding_single (v : List ℚ) : avgEmbedding [v] = v.map some := by
  unfold avgEmbedding
  rw [show (([v] : List (List ℚ)).headD []) = v from rfl, ← range_map_some_getD v]
  apply List.map_congr_left
  intro i hi
  have hilt : i < v.length := List.mem_range.mp hi
  have hsum : sumAt [v] i = some (v.getD i 0) := by
    simp only [sumAt, List.foldl_cons, List.foldl_nil,
      List.getD_eq_getElem?_getD, List.getElem?_eq_getElem hilt]
    simp [jsAdd]
  rw [hsum]
  simp [jsDiv]

/-- C10: for a non-empty text that fits in one chunk, the document pipeline
issues exactly one provider call (on the full text), returns exactly the
provider's vector, and agrees with the single-call query path
(`generateEmbedding`). -/
theorem single_chunk_doc_query_agree (content : Text) (v : List ℚ)
    (provider : Text → Except EmbErr (List ℚ))
    (h1 : content ≠ []) (h2 : content.length ≤ 2000)
    (hp : provider content = Except.ok v) :
    chunkText content = [content] ∧
    providerCalls provider content = [content] ∧
    generateEmbeddingsForDocument provider content =
      Except.ok (some (v.map some)) ∧
    generateEmbedding provider content = Except.ok v := by
  have hch := chunkText_single h1 h2
  refine ⟨hch, ?_, ?_, hp⟩
  · simp [providerCalls, hch, embedChunks, generateEmbedding, hp]
  · simp [generateEmbeddingsForDocument, hch, embedChunks, generateEmbedding,
      hp, Except.map, avgEmbedding_single]

/-- Witness for C10: a 2-character text embeds through the document pipeline
into exactly the provider's single vector. -/
theorem single_chunk_doc_query_agree_witness :
    generateEmbeddingsForDocument
        (fun t => if t = ['h','i'] then Except.ok [5, 7] else Except.error EmbErr.failed)
        ['h','i'] =
      Except.ok (some [some 5, some 7]) := by
  have h := single_chunk_doc_query_agree ['h','i'] [5, 7]
    (fun t => if t = ['h','i'] then Except.ok [5, 7] else Except.error EmbErr.failed)
    (by decide) (by decide) (by simp)
  exact h.2.2.1

lemma chunkText_replicate_2001 :
    chunkText (List.replicate 2001 'a') = [List.replicate 2000 'a', ['a']] := by
  unfold chunkText
  rw [List.length_replicate]
  rw [chunkTextAux_step _ 2000 (by norm_num)]
  rw [if_neg (by rw [List.length_replicate]; norm_num)]
  rw [List.take_replicate, List.drop_replicate]
  norm_num
  rw [chunkTextAux_step _ 2000 (by norm_num)]
  rw [if_neg (by norm_num)]
  rw [List.take_of_length_le (by norm_num),
    List.drop_eq_nil_of_le (by norm_num), chunkTextAux_nil]

/-- C5 (behaviour at the failing input): with chunk vectors `[1]` and
`[2, 3]` of mismatched lengths, `generateEmbeddingsForDocument` does not
raise an `EmbeddingError`; it resolves with the silently truncated average
`[(1 + 2) / 2]`, ignoring the second component of the longer vector. -/
theorem dim_mismatch_not_failfast :
    generateEmbeddingsForDocument mismatchProvider (List.replicate 2001 'a') =
      Except.ok (some [some (3 / 2)]) := by
  have h1 : mismatchProvider (List.replicate 2000 'a') = Except.ok [1] := by
    simp only [mismatchProvider, List.length_replicate]
    norm_num
  have h2 : mismatchProvider ['a'] = Except.ok [2, 3] := by
    simp only [mismatchProvider, List.length_cons, List.length_nil]
    norm_num
  have he : (embedChunks mismatchProvider [List.replicate 2000 'a', ['a']]).2 =
      Except.ok [[1], [2, 3]] := by
    simp only [embedChunks, generateEmbedding, h1, h2, Except.map]
  rw [generateEmbeddingsForDocument, chunkText_replicate_2001, he]
  norm_num [avgEmbedding, sumAt, jsAdd, jsDiv, List.range_succ]

/-!
## Retrieval protocol theorems (C3, C4, C9)
-/

/-- C3: with positive integer `page` and `limit`, the search route computes
`offset = (page - 1) * limit` and returns exactly the slice of the full
distance-ranked result set from rank `offset + 1` to rank `offset + limit`:
element `j` of the page is element `offset + j` of the full ranked set. -/
theorem search_pagination_spec (provider : Text → Except EmbErr (List ℚ))
    (dist : List JSNum → List ℚ → ℚ) (s : DBState) (query : Text)
    (probe : List ℚ) (limit page : Nat)
    (hq : query ≠ []) (_hl : 0 < limit) (_hp : 0 < page)
    (hprov : provider query = Except.ok probe) :
    searchRoute provider dist s query limit page =
      Except.ok
        (((fullRankedResults s dist probe).drop ((page - 1) * limit)).take limit,
          page, limit) ∧
    (∀ j : Nat, j < limit →
      (searchResults s dist probe limit ((page - 1) * limit))[j]? =
        (fullRankedResults s dist probe)[(page - 1) * limit + j]?) := by
  have hsr : searchResults s dist probe limit ((page - 1) * limit) =
      ((fullRankedResults s dist probe).drop ((page - 1) * limit)).take limit := by
    rw [searchResults, fullRankedResults, ← List.map_drop, ← List.map_take]
  constructor
  · rw [searchRoute, if_neg (by simpa [List.isEmpty_iff] using hq),
      searchDocuments, generateEmbedding, hprov]
    simp only [hsr]
  · intro j hj
    rw [hsr, List.getElem?_take, if_pos hj, List.getElem?_drop]

/-- Witness for C3: page 2 with limit 1 on a one-document store returns the
slice of the full ranked set starting at rank 2. -/
theorem search_pagination_spec_witness :
    searchRoute (fun _ => Except.ok [1]) (fun _ _ => 0)
        ⟨[⟨1, [], [], 0⟩], [⟨1, [some 1]⟩], 2⟩ ['q'] 1 2 =
      Except.ok
        (((fullRankedResults ⟨[⟨1, [], [], 0⟩], [⟨1, [some 1]⟩], 2⟩
            (fun _ _ => 0) [1]).drop ((2 - 1) * 1)).take 1, 2, 1) :=
  (search_pagination_spec (fun _ => Except.ok [1]) (fun _ _ => 0)
    ⟨[⟨1, [], [], 0⟩], [⟨1, [some 1]⟩], 2⟩ ['q'] [1] 1 2
    (by decide) (by decide) (by decide) rfl).1

/-- C4: every search result's similarity is exactly `1 - distance` for the
distance its ranked row reported; distance 0 gives exactly 1 and distance 2
gives exactly -1 (no clipping). -/
theorem similarity_formula_spec (provider : Text → Except EmbErr (List ℚ))
    (dist : List JSNum → List ℚ → ℚ) (s : DBState) (query : Text)
    (limit offset : Nat) (res : List SearchResult) (r : SearchResult)
    (hres : searchDocuments provider dist s query limit offset = Except.ok res)
    (hr : r ∈ res) :
    ∃ (probe : List ℚ) (row : SearchRow),
      provider query = Except.ok probe ∧
      row ∈ rankedRows s dist probe ∧
      r = toResult row ∧
      r.similarity = 1 - row.distance ∧
      (row.distance = 0 → r.similarity = 1) ∧
      (row.distance = 2 → r.similarity = -1) := by
  rw [searchDocuments, generateEmbedding] at hres
  cases hp : provider query with
  | error e => rw [hp] at hres; exact absurd hres (by simp)
  | ok probe =>
    rw [hp] at hres
    have hres' : searchResults s dist probe limit offset = res :=
      Except.ok.inj hres
    subst hres'
    obtain ⟨row, hrow, rfl⟩ := List.mem_map.mp hr
    have hrow' : row ∈ rankedRows s dist probe :=
      List.drop_subset _ _ (List.take_subset _ _ hrow)
    refine ⟨probe, row, rfl, hrow', rfl, rfl, ?_, ?_⟩
    · intro h0; simp [toResult, h0]
    · intro h2; rw [show (toResult row).similarity = 1 - row.distance from rfl, h2]
      norm_num

/-- Witness for C4: a store whose only vector is at distance 0 from the
probe yields a result whose similarity is exactly 1. -/
theorem similarity_formula_spec_witness :
    ∃ (probe : List ℚ) (row : SearchRow),
      (fun (_ : Text) => (Except.ok [(1 : ℚ)] : Except EmbErr (List ℚ))) ['q'] =
        Except.ok probe ∧
      row ∈ rankedRows ⟨[⟨1, [], [], 0⟩], [⟨1, [some 1]⟩], 2⟩
        (fun _ _ => 0) probe ∧
      toResult ⟨1, [], [], 0, 0⟩ = toResult row ∧
      (toResult ⟨1, [], [], 0, 0⟩).similarity = 1 - row.distance ∧
      (row.distance = 0 → (toResult ⟨1, [], [], 0, 0⟩).similarity = 1) ∧
      (row.distance = 2 → (toResult ⟨1, [], [], 0, 0⟩).similarity = -1) :=
  similarity_formula_spec (fun _ => Except.ok [1]) (fun _ _ => 0)
    ⟨[⟨1, [], [], 0⟩], [⟨1, [some 1]⟩], 2⟩ ['q'] 10 0
    [toResult ⟨1, [], [], 0, 0⟩] (toResult ⟨1, [], [], 0, 0⟩) rfl
    (List.mem_cons_self _ _)

/-- C9: a catalogued document with no embedding row never appears in any
search result (for every distance capability, probe, limit and offset), yet
its summary appears in the catalog listing. -/
theorem no_vector_no_search_spec (s : DBState) (d : DocRecord)
    (hd : d ∈ s.documents) (hno : ∀ e ∈ s.embeddings, e.docId ≠ d.id) :
    (∀ (dist : List JSNum → List ℚ → ℚ) (probe : List ℚ) (limit offset : Nat),
      ∀ r ∈ searchResults s dist probe limit offset, r.id ≠ d.id) ∧
    toSummary d ∈ listDocuments s s.documents.length 1 := by
  constructor
  · intro dist probe limit offset r hr
    obtain ⟨row, hrow, rfl⟩ := List.mem_map.mp hr
    have hrow2 : row ∈ rankedRows s dist probe :=
      List.drop_subset _ _ (List.take_subset _ _ hrow)
    rw [rankedRows, List.mem_insertionSort] at hrow2
    obtain ⟨d', _hd', hrowmap⟩ := List.mem_flatMap.mp hrow2
    obtain ⟨e, he, rfl⟩ := List.mem_map.mp hrowmap
    have he2 : e ∈ s.embeddings := (List.mem_filter.mp he).1
    have hee : e.docId = d'.id := by simpa using (List.mem_filter.mp he).2
    intro hcontra
    exact hno e he2 (hee.trans hcontra)
  · rw [listDocuments, show (1 - 1) * s.documents.length = 0 from by norm_num,
      List.drop_zero,
      List.take_of_length_le (List.length_insertionSort _ _).le]
    exact List.mem_map.mpr ⟨d, (List.mem_insertionSort _).mpr hd, rfl⟩

/-- Witness for C9: the single catalogued document of a store with an empty
embeddings table appears in the catalog listing. -/
theorem no_vector_no_search_spec_witness :
    toSummary ⟨1, [], [], 0⟩ ∈ listDocuments ⟨[⟨1, [], [], 0⟩], [], 2⟩ 1 1 :=
  (no_vector_no_search_spec ⟨[⟨1, [], [], 0⟩], [], 2⟩ ⟨1, [], [], 0⟩
    (by decide) (by simp)).2

/-!
## Ingestion theorems (C6, C7, C8)
-/

/-- C6: when the metadata insert succeeds but embedding generation fails,
`saveDocument` still resolves with success carrying the document identifier,
the document record is in the catalog, and no vector row is written. -/
theorem ingest_partial_failure_spec (provider : Text → Except EmbErr (List ℚ))
    (filename content : Text) (now : Nat) (s : DBState) (e : EmbErr)
    (hfail : generateEmbeddingsForDocument provider content = Except.error e) :
    (saveDocument provider filename content now s).2 = ⟨s.nextId, content⟩ ∧
    (⟨s.nextId, filename, catalogPreview content, now⟩ : DocRecord) ∈
      (saveDocument provider filename content now s).1.documents ∧
    (saveDocument provider filename content now s).1.embeddings =
      s.embeddings := by
  refine ⟨?_, ?_, ?_⟩ <;> simp [saveDocument, hfail]

/-- Witness for C6: a provider that always fails leaves the embeddings
table unchanged while the document record is inserted. -/
theorem ingest_partial_failure_spec_witness :
    (saveDocument (fun _ => Except.error EmbErr.failed) ['f'] ['a'] 0
        ⟨[], [], 1⟩).1.embeddings = (⟨[], [], 1⟩ : DBState).embeddings :=
  (ingest_partial_failure_spec (fun _ => Except.error EmbErr.failed)
    ['f'] ['a'] 0 ⟨[], [], 1⟩ EmbErr.failed rfl).2.2

/-- C7 counterexample: for the 3-character text `"abc"`, the `/api/process`
response's preview field is `"abc..."` (first 200 characters plus an
unconditional marker), not the spec-claimed 500-character preview `"abc"`
(marker only when longer than 500). -/
theorem process_preview_counterexample :
    (processRoute (fun _ => Except.error EmbErr.failed) ['f'] ['a', 'b', 'c'] 0
        ⟨[], [], 1⟩).2 ≠ specClaimedPreview ['a', 'b', 'c'] := by
  decide

/-- C7 amended: the catalog preview stored by `saveDocument` is the first
500 characters with the marker appended iff the text is longer than 500;
`saveDocument` resolves with the identifier and the full content, and the
`/api/process` response carries the identifier together with a preview that
is the first 200 characters with the marker appended unconditionally. -/
theorem preview_semantics_spec (provider : Text → Except EmbErr (List ℚ))
    (filename content : Text) (now : Nat) (s : DBState) :
    (saveDocument provider filename content now s).2 = ⟨s.nextId, content⟩ ∧
    (⟨s.nextId, filename, catalogPreview content, now⟩ : DocRecord) ∈
      (saveDocument provider filename content now s).1.documents ∧
    (content.length ≤ 500 → catalogPreview content = content) ∧
    (500 < content.length →
      catalogPreview content = content.take 500 ++ ['.', '.', '.']) ∧
    (processRoute provider filename content now s).1 = s.nextId ∧
    (processRoute provider filename content now s).2 =
      content.take 200 ++ ['.', '.', '.'] := by
  have hmain : (saveDocument provider filename content now s).2 =
      ⟨s.nextId, content⟩ ∧
      (⟨s.nextId, filename, catalogPreview content, now⟩ : DocRecord) ∈
        (saveDocument provider filename content now s).1.documents := by
    cases hgen : generateEmbeddingsForDocument provider content with
    | error e => exact ⟨by simp [saveDocument, hgen], by simp [saveDocument, hgen]⟩
    | ok ov =>
      cases ov with
      | none => exact ⟨by simp [saveDocument, hgen], by simp [saveDocument, hgen]⟩
      | some v => exact ⟨by simp [saveDocument, hgen], by simp [saveDocument, hgen]⟩
  refine ⟨hmain.1, hmain.2, ?_, ?_, ?_, ?_⟩
  · intro h
    rw [catalogPreview, List.take_of_length_le h, if_neg (by omega),
      List.append_nil]
  · intro h
    rw [catalogPreview, if_pos h]
  · rw [processRoute, hmain.1]
  · rw [processRoute, hmain.1]

/-- C8: embedding the empty text returns the `null` sentinel with no
provider call issued, and ingestion of empty text still succeeds at the
metadata level with no vector stored. -/
theorem embed_empty_spec (provider : Text → Except EmbErr (List ℚ))
    (filename : Text) (now : Nat) (s : DBState) :
    generateEmbeddingsForDocument provider [] = Except.ok none ∧
    providerCalls provider [] = [] ∧
    (saveDocument provider filename [] now s).2 = ⟨s.nextId, []⟩ ∧
    (saveDocument provider filename [] now s).1.embeddings = s.embeddings ∧
    (⟨s.nextId, filename, catalogPreview [], now⟩ : DocRecord) ∈
      (saveDocument provider filename [] now s).1.documents := by
  have hgen : generateEmbeddingsForDocument provider [] = Except.ok none := by
    simp [generateEmbeddingsForDocument, chunkText, chunkTextAux, embedChunks]
  refine ⟨hgen, ?_, ?_, ?_, ?_⟩
  · simp [providerCalls, chunkText, chunkTextAux, embedChunks]
  · simp [saveDocument, hgen]
  · simp [saveDocument, hgen]
  · simp [saveDocument, hgen]
